import Mathlib

/-!
Verification of the Kingdomino rules engine (`kingdomino.py`).

The Python source is shallowly embedded below: the grid is a total function
from integer coordinates to cells (the Python code stores a 10×10 list
indexed by `x+5`, `y+5`; the asserting accessor `at` only exposes
coordinates in `[-4,4]`), generators become fuel-indexed list producers,
and operations that can raise (`assert` failures, `IndexError`) return
`Option`.
-/

set_option maxHeartbeats 1000000

/-- The types of Kingdomino tile environments (`Environment` enum). -/
inductive Environment where
  | BASE
  | EMPTY
  | WHEAT
  | FOREST
  | OCEAN
  | PASTURE
  | SWAMP
  | MINE
deriving DecidableEq

/-- A single cell in a tile or game grid (`Cell`). -/
structure Cell where
  environment : Environment
  crowns : Nat
deriving DecidableEq

/-- A Kingdomino tile: two cells plus the tile number on the back (`Tile`).
The Python `cells` list always has exactly two entries, embedded as a pair. -/
structure Tile where
  number : Nat
  cells : Cell × Cell
deriving DecidableEq

/-- Shorthand for `Tile(number, env1, crowns1, env2, crowns2)`. -/
def mkTile (number : Nat) (env1 : Environment) (crowns1 : Nat)
    (env2 : Environment) (crowns2 : Nat) : Tile :=
  ⟨number, ⟨env1, crowns1⟩, ⟨env2, crowns2⟩⟩

/-- All the king's domino tiles (`ALL_TILES`). -/
def ALL_TILES : List Tile := [
  mkTile 1 .WHEAT 0 .WHEAT 0,
  mkTile 2 .WHEAT 0 .WHEAT 0,
  mkTile 3 .FOREST 0 .FOREST 0,
  mkTile 4 .FOREST 0 .FOREST 0,
  mkTile 5 .FOREST 0 .FOREST 0,
  mkTile 6 .FOREST 0 .FOREST 0,
  mkTile 7 .OCEAN 0 .OCEAN 0,
  mkTile 8 .OCEAN 0 .OCEAN 0,
  mkTile 9 .OCEAN 0 .OCEAN 0,
  mkTile 10 .PASTURE 0 .PASTURE 0,
  mkTile 11 .PASTURE 0 .PASTURE 0,
  mkTile 12 .SWAMP 0 .SWAMP 0,
  mkTile 13 .WHEAT 0 .FOREST 0,
  mkTile 14 .WHEAT 0 .OCEAN 0,
  mkTile 15 .WHEAT 0 .PASTURE 0,
  mkTile 16 .WHEAT 0 .SWAMP 0,
  mkTile 17 .FOREST 0 .OCEAN 0,
  mkTile 18 .FOREST 0 .PASTURE 0,
  mkTile 19 .WHEAT 1 .FOREST 0,
  mkTile 20 .WHEAT 1 .OCEAN 0,
  mkTile 21 .WHEAT 1 .PASTURE 0,
  mkTile 22 .WHEAT 1 .SWAMP 0,
  mkTile 23 .WHEAT 1 .MINE 0,
  mkTile 24 .FOREST 1 .WHEAT 0,
  mkTile 25 .FOREST 1 .WHEAT 0,
  mkTile 26 .FOREST 1 .WHEAT 0,
  mkTile 27 .FOREST 1 .WHEAT 0,
  mkTile 28 .FOREST 1 .OCEAN 0,
  mkTile 29 .FOREST 1 .PASTURE 0,
  mkTile 30 .OCEAN 1 .WHEAT 0,
  mkTile 31 .OCEAN 1 .WHEAT 0,
  mkTile 32 .OCEAN 1 .FOREST 0,
  mkTile 33 .OCEAN 1 .FOREST 0,
  mkTile 34 .OCEAN 1 .FOREST 0,
  mkTile 35 .OCEAN 1 .FOREST 0,
  mkTile 36 .WHEAT 0 .PASTURE 1,
  mkTile 37 .OCEAN 0 .PASTURE 1,
  mkTile 38 .WHEAT 0 .SWAMP 1,
  mkTile 39 .PASTURE 0 .SWAMP 1,
  mkTile 40 .MINE 1 .WHEAT 0,
  mkTile 41 .WHEAT 0 .PASTURE 2,
  mkTile 42 .OCEAN 0 .PASTURE 2,
  mkTile 43 .WHEAT 0 .SWAMP 2,
  mkTile 44 .PASTURE 0 .SWAMP 2,
  mkTile 45 .MINE 2 .WHEAT 0,
  mkTile 46 .SWAMP 0 .MINE 2,
  mkTile 47 .SWAMP 0 .MINE 2,
  mkTile 48 .WHEAT 0 .MINE 3]

abbrev Coord := Int × Int

abbrev Placing := Coord × Coord

/-- A player's game grid. Python stores `grid` as a 10×10 list of lists
indexed by `grid[x+5][y+5]`; here a grid is a total function on coordinates.
Only coordinates readable through the asserting accessor `at` (both axes in
`[-4,4]`) are ever consulted by the game logic. -/
abbrev Grid := Coord → Cell

/-- Both coordinates within the valid `[-4,4]` range of the grid. -/
def inRange (c : Coord) : Prop :=
  -4 ≤ c.1 ∧ c.1 ≤ 4 ∧ -4 ≤ c.2 ∧ c.2 ≤ 4

instance inRange.decide (c : Coord) : Decidable (inRange c) := by
  unfold inRange; infer_instance

/-- `Player.at(x, y)`: asserts `-5 < x < 5` and `-5 < y < 5` and returns the
stored cell; an assertion failure (OutOfRange) is modelled as `none`. -/
def at_ (g : Grid) (x y : Int) : Option Cell :=
  if -5 < x ∧ x < 5 ∧ -5 < y ∧ y < 5 then some (g (x, y)) else none

/-- Environment of the cell read through `Player.at`. Every call site below
passes a coordinate that is in range (`adj` clamps its outputs and the 5×5
bounding-box test rejects out-of-range placements before occupancy reads),
so the `assert` in `at` never fires and the raw read is equivalent. -/
def envAt (g : Grid) (c : Coord) : Environment :=
  (g c).environment

/-- Python list indexing arithmetic for a length-10 row or column: indices in
`[0,10)` are direct, indices in `[-10,0)` wrap around (Python negative
indexing), anything else raises `IndexError` (`none`). `Player.set_cell` has
no range assertion, unlike `at`, so the wraparound is reachable there. -/
def pyIdx10 (i : Int) : Option Int :=
  if 0 ≤ i ∧ i < 10 then some i
  else if -10 ≤ i ∧ i < 0 then some (i + 10)
  else none

/-- `Player.set_cell(coord, cell)`: writes `grid[x+5][y+5] = cell` with
Python list-index semantics (no range check of its own). The stored index
pair `(i, j)` corresponds to the coordinate `(i-5, j-5)`. -/
def set_cell (g : Grid) (coord : Coord) (cell : Cell) : Option Grid :=
  (pyIdx10 (coord.1 + 5)).bind fun i =>
    (pyIdx10 (coord.2 + 5)).map fun j =>
      fun c => if c.1 + 5 = i ∧ c.2 + 5 = j then cell else g c

/-- `Player.set_tile(placement, tile)`: writes `tile.cells[0]` at
`placement[0]` and `tile.cells[1]` at `placement[1]`. -/
def set_tile (g : Grid) (placement : Placing) (tile : Tile) : Option Grid :=
  (set_cell g placement.1 tile.cells.1).bind fun g1 =>
    set_cell g1 placement.2 tile.cells.2

/-- The grid built by `Player.__init__`: 10×10 all-`EMPTY` cells, then the
cell at the origin is made the `BASE`. -/
def initGrid : Grid :=
  fun c => if c = ((0 : Int), (0 : Int)) then ⟨.BASE, 0⟩ else ⟨.EMPTY, 0⟩

/-- `Player.adj(coord)`: the up-to-4 orthogonal neighbours that stay inside
the grid, yielded in the fixed order lower, left, right, upper. -/
def adj (coord : Coord) : List Coord :=
  (if coord.2 > -4 then [(coord.1, coord.2 - 1)] else []) ++
  (if coord.1 > -4 then [(coord.1 - 1, coord.2)] else []) ++
  (if coord.1 < 4 then [(coord.1 + 1, coord.2)] else []) ++
  (if coord.2 < 4 then [(coord.1, coord.2 + 1)] else [])

/-- One iteration of the body of the `while q` loop in `Player.search`: for
each neighbour of the dequeued `loc`, skip already-visited or empty cells,
record the cell as visited, and insert it at the front of the queue when its
environment matches `loc`'s, at the back otherwise. -/
def searchStep (g : Grid) (loc : Coord) (qh : List Coord × List Coord) :
    List Coord × List Coord :=
  (adj loc).foldl
    (fun acc c =>
      if c ∈ acc.2 ∨ envAt g c = .EMPTY then acc
      else if envAt g c = envAt g loc then (c :: acc.1, c :: acc.2)
      else (acc.1 ++ [c], c :: acc.2))
    qh

/-- The `while q` loop of `Player.search`, with fuel standing in for the
generator's unbounded iteration (the loop always terminates because every
enqueue first records a fresh in-range coordinate in the visited set). -/
def searchGo (g : Grid) : Nat → List Coord → List Coord → List Coord
  | 0, _, _ => []
  | _ + 1, [], _ => []
  | fuel + 1, loc :: q, hist =>
      let qh := searchStep g loc (q, hist)
      loc :: searchGo g fuel qh.1 qh.2

/-- `Player.search()` from the default origin `(0, 0)`. Python initialises
the visited set as `hist = set(q[0])`, which iterates over the origin tuple
and produces a set of integers `{0}` rather than `{(0, 0)}`; no coordinate
tuple ever equals an integer, so the initial visited set is effectively
empty and in particular the origin itself is not marked visited. -/
def search (g : Grid) (fuel : Nat) : List Coord :=
  searchGo g fuel [((0 : Int), (0 : Int))] []

/-- Accumulator of `Player.score`: current group environment, its running
crown total, its running cell count, and the score so far. -/
structure ScoreAcc where
  env : Environment
  crowns : Nat
  contiguous : Nat
  total : Nat

/-- Body of the `for loc in self.search()` loop in `Player.score`. -/
def scoreStep (g : Grid) (a : ScoreAcc) (loc : Coord) : ScoreAcc :=
  let c := g loc
  let a' :=
    if c.environment ≠ a.env then
      ScoreAcc.mk c.environment 0 0 (a.total + a.crowns * a.contiguous)
    else a
  ⟨a'.env, a'.crowns + c.crowns, a'.contiguous + 1, a'.total⟩

/-- `Player.score()`: fold the search order into group contributions of
`crowns × contiguous`, flushing the final group after the traversal. -/
def score (g : Grid) (fuel : Nat) : Nat :=
  let a := (search g fuel).foldl (scoreStep g) ⟨.EMPTY, 0, 0, 0⟩
  a.total + a.crowns * a.contiguous

/-- `Player.tile_adj(loc)`: the 24 candidate placings of a domino touching
`loc`, in the source's yield order. -/
def tile_adj (loc : Coord) : List Placing :=
  let x := loc.1
  let y := loc.2
  (([-1, 1] : List Int).flatMap fun dy =>
    [((x, y + dy), (x, y + 2 * dy)),
     ((x, y + 2 * dy), (x, y + dy)),
     ((x - 1, y + dy), (x, y + dy)),
     ((x, y + dy), (x - 1, y + dy)),
     ((x, y + dy), (x + 1, y + dy)),
     ((x + 1, y + dy), (x, y + dy))]) ++
  (([-1, 1] : List Int).flatMap fun dx =>
    [((x + dx, y), (x + 2 * dx, y)),
     ((x + 2 * dx, y), (x + dx, y)),
     ((x + dx, y), (x + dx, y + 1)),
     ((x + dx, y + 1), (x + dx, y)),
     ((x + dx, y), (x + dx, y - 1)),
     ((x + dx, y - 1), (x + dx, y))])

/-- The occupied bounding box computed at the top of
`Player.enumerate_valid_placings`: min and max x and y over the non-empty
cells, each seeded with 0. -/
structure BBox where
  min_x : Int
  max_x : Int
  min_y : Int
  max_y : Int

/-- Body of the bounding-box scan over the grid. -/
def bboxStep (g : Grid) (b : BBox) (c : Coord) : BBox :=
  if envAt g c ≠ .EMPTY then
    ⟨min c.1 b.min_x, max c.1 b.max_x, min c.2 b.min_y, max c.2 b.max_y⟩
  else b

/-- The 81 grid coordinates in the scan order of the source:
`for y in range(-4, 5): for x in range(-4, 5)`. -/
def gridCoords : List Coord :=
  (List.range 9).flatMap fun j =>
    (List.range 9).map fun i => (((i : Int) - 4, (j : Int) - 4) : Coord)

/-- The bounding-box computation of `Player.enumerate_valid_placings`. -/
def bbox (g : Grid) : BBox :=
  gridCoords.foldl (bboxStep g) ⟨0, 0, 0, 0⟩

/-- The 5×5 rule test: reject the placing when extending the bounding box to
its two coordinates would span 5 or more along either axis. -/
def fits5x5 (b : BBox) (p : Placing) : Bool :=
  let x_lo := min b.min_x (min p.1.1 p.2.1)
  let x_hi := max b.max_x (max p.1.1 p.2.1)
  let y_lo := min b.min_y (min p.1.2 p.2.2)
  let y_hi := max b.max_y (max p.1.2 p.2.2)
  if 5 ≤ x_hi - x_lo ∨ 5 ≤ y_hi - y_lo then false else true

/-- The collision test: some cell of the placing is already non-empty. -/
def collides (g : Grid) (p : Placing) : Bool :=
  [p.1, p.2].any fun c => envAt g c ≠ .EMPTY

/-- The adjacency test: some cell of the placing has an orthogonal neighbour
whose environment is `BASE` or matches that cell's own tile environment. -/
def hasMatch (g : Grid) (tile : Tile) (p : Placing) : Bool :=
  ((adj p.1).any fun a => envAt g a = .BASE ∨ envAt g a = tile.cells.1.environment) ||
  ((adj p.2).any fun a => envAt g a = .BASE ∨ envAt g a = tile.cells.2.environment)

/-- The three `continue` filters of `Player.enumerate_valid_placings`, in
source order: the 5×5 rule, the collision test, the adjacency test. -/
def placingOK (g : Grid) (b : BBox) (tile : Tile) (p : Placing) : Bool :=
  fits5x5 b p && !collides g p && hasMatch g tile p

/-- The candidate loop of `Player.enumerate_valid_placings`: walk the
candidate stream, skip placings already considered (`hist`), and yield the
ones passing all three filters. -/
def enumGo (g : Grid) (b : BBox) (tile : Tile) :
    List Placing → List Placing → List Placing
  | [], _ => []
  | p :: rest, hist =>
      if p ∈ hist then enumGo g b tile rest hist
      else if placingOK g b tile p then p :: enumGo g b tile rest (p :: hist)
      else enumGo g b tile rest (p :: hist)

/-- `Player.enumerate_valid_placings(tile)`: candidates are the `tile_adj`
placings of every coordinate yielded by `search`, deduplicated and filtered.
`fuel` feeds the embedded `search` generator. -/
def enumerate_valid_placings (g : Grid) (tile : Tile) (fuel : Nat) : List Placing :=
  enumGo g (bbox g) tile ((search g fuel).flatMap tile_adj) []

/-- `Player.valid_placings(tile)`: the set of valid placings, already
deduplicated by the enumeration (kept in yield order here; Python collects
them into a `set`). -/
def valid_placings (g : Grid) (tile : Tile) (fuel : Nat) : List Placing :=
  enumerate_valid_placings g tile fuel

/-- The default `Player.choose_tile`: `choices[0]`, the lowest numbered tile
available; an empty list would raise `IndexError` (`none`). -/
def choose_tile (choices : List Tile) : Option Tile :=
  choices.head?

/-- The default `Player.place_tile`: return the first placing produced by
iterating `valid_placings`, or `None` if the iteration is empty. -/
def place_tile (tile : Tile) (vps : List Placing) : Option Placing :=
  vps.head?

/-- A strategy is the pluggable pair of player decision operations (the
methods a `Player` subclass overrides). The defaults mirror the base class;
`none` is the "no decision yet" sentinel. -/
structure Strategy where
  choose_tile : List Tile → Option Tile
  place_tile : Tile → List Placing → Option Placing

/-- The built-in default (non-interactive) player behaviour. -/
def defaultStrategy : Strategy :=
  ⟨choose_tile, place_tile⟩

/-- A slot holds `(tile, player)`, either of which can be `None`. Python
slots reference `Player` objects (compared by identity); players are
embedded by their index into the game's shuffled player list, which the
engine never changes, so index equality is object identity. -/
abbrev Slot := Option Tile × Option Nat

/-- The per-player state a `Game` owns: the identity of the supplied
`Player` instance, the number assigned at construction, and the grid. -/
structure PlayerState where
  pid : Nat
  number : Nat
  grid : Grid

/-- The state owned by `Game`: the shuffled players, the deck, and the two
slot groups. -/
structure GameState where
  players : List PlayerState
  deck : List Tile
  slots0 : List Slot
  slots1 : List Slot

/-- The log events `Game.step` emits through `Game.log`. -/
inductive GEvent where
  | chose (playerNumber : Nat) (tileNumber : Nat)
  | discarded (playerNumber : Nat) (tileNumber : Nat)
  | placed (playerNumber : Nat) (tileNumber : Nat) (placement : Placing)
deriving DecidableEq

/-- The scan at the top of `Game.step`: the first group-0 slot with a
non-null player gives the active player and their pending tile. -/
def findActive : List Slot → Option (Option Tile × Nat)
  | [] => none
  | (t, some p) :: _ => some (t, p)
  | (_, none) :: rest => findActive rest

/-- The choice-recording loop of `Game.step`: put the player's token on the
first group-1 slot holding the chosen tile (tiles are compared by identity
in Python; tile numbers are unique, so structural equality agrees). -/
def writeChoice (slots1 : List Slot) (choice : Tile) (p : Nat) : List Slot :=
  match slots1.findIdx? (fun sl => sl.1 = some choice) with
  | some i => slots1.set i (some choice, some p)
  | none => slots1

/-- The token-removal loop at the end of a placing step: clear the first
group-0 slot owned by the active player to `(None, None)`. -/
def clearSlot0 (slots0 : List Slot) (p : Nat) : List Slot :=
  match slots0.findIdx? (fun sl => sl.2 = some p) with
  | some i => slots0.set i (none, none)
  | none => slots0

/-- Number of the player at index `p` (used in log events). -/
def numberOf (s : GameState) (p : Nat) : Nat :=
  match s.players.get? p with
  | some pst => pst.number
  | none => 0

/-- `Game._draw()`: deal the top 4 tiles (the back of the deck list), sort
them ascending by tile number, and return the shrunken deck and the new
slots with no player assigned. -/
def draw (deck : List Tile) : List Tile × List Slot :=
  let drawn := deck.drop (deck.length - 4)
  let deck' := deck.take (deck.length - 4)
  let sorted := drawn.mergeSort fun a b => a.number ≤ b.number
  (deck', sorted.map fun t => (some t, none))

/-- `Game._deal()`: assert every group-0 slot was cleared, rotate group 1
into group 0, then draw fresh tiles into group 1. The assertion failure is
modelled as `none`. -/
def deal (s : GameState) : Option GameState :=
  if s.slots0.all (fun sl => sl = (none, none)) then
    let ds := draw s.deck
    some { s with slots0 := s.slots1, deck := ds.1, slots1 := ds.2 }
  else none

/-- The fuel passed to the embedded `search` generator wherever the engine
enumerates placements; 200 exceeds the longest possible traversal (at most
82 dequeues over an 81-cell grid even with the origin revisit). -/
def engineFuel : Nat := 200

/-- `Game.step()`: play one step, returning whether the game continues, the
new state, and the log events emitted. `none` models an uncaught exception
(the `_deal` assertion or an `IndexError` from an out-of-range placement
write). Strategies are supplied per player index. -/
def step (strats : Nat → Strategy) (s : GameState) :
    Option (Bool × GameState × List GEvent) :=
  match findActive s.slots0 with
  | none =>
      if s.deck.isEmpty then
        -- No tiles left in the deck, so the game is over.
        some (false, s, [])
      else
        -- Deal the next 4 tiles; nobody acts this step.
        (deal s).map fun s' => (true, s', [])
  | some (whose_tile, whose_turn) =>
      let has_chosen := s.slots1.any fun sl => sl.2 = some whose_turn
      if has_chosen then
        match whose_tile with
        | none =>
            -- Start-of-game bye: just remove the token from group 0.
            some (true, { s with slots0 := clearSlot0 s.slots0 whose_turn }, [])
        | some t =>
            match s.players.get? whose_turn with
            | none => none
            | some pst =>
                let placements := valid_placings pst.grid t engineFuel
                if placements.isEmpty then
                  some (true, { s with slots0 := clearSlot0 s.slots0 whose_turn },
                    [.discarded pst.number t.number])
                else
                  match (strats whose_turn).place_tile t placements with
                  | none => some (true, s, [])
                  | some pl =>
                      match set_tile pst.grid pl t with
                      | none => none
                      | some g' =>
                          some (true,
                            { s with
                              players := s.players.set whose_turn { pst with grid := g' },
                              slots0 := clearSlot0 s.slots0 whose_turn },
                            [.placed pst.number t.number pl])
      else
        let choices := (s.slots1.filter fun sl => sl.2 = none).filterMap fun sl => sl.1
        match (strats whose_turn).choose_tile choices with
        | some choice =>
            some (true, { s with slots1 := writeChoice s.slots1 choice whose_turn },
              [.chose (numberOf s whose_turn) choice.number])
        | none => some (true, s, [])

/-- The state reached by one call to `step`, discarding the continue flag
and the log events. -/
def advance (strats : Nat → Strategy) (s : GameState) : Option GameState :=
  (step strats s).map fun r => r.2.1

/-- The state reached by `n` successive calls to `step`. -/
def advanceN (strats : Nat → Strategy) : Nat → GameState → Option GameState
  | 0, s => some s
  | n + 1, s => (advance strats s).bind (advanceN strats n)

/-- Drive the game with repeated `step` calls (up to `fuel` of them),
collecting all emitted log events, until `step` reports the game over or
raises. -/
def stepsTrace (strats : Nat → Strategy) : Nat → GameState → List GEvent × GameState
  | 0, s => ([], s)
  | n + 1, s =>
      match step strats s with
      | none => ([], s)
      | some (false, s', evs) => (evs, s')
      | some (true, s', evs) =>
          let r := stepsTrace strats n s'
          (evs ++ r.1, r.2)

/-- Modelled from the spec: `Game.__init__` seeds `random.Random(seed)`, the
standard library's pseudo-random generator, which is not part of this
repository's sources; the spec relies only on it being deterministic for a
fixed seed. A fixed 64-bit linear congruential step stands in for the
Mersenne Twister. -/
def randNext (r : Nat) : Nat :=
  (6364136223846793005 * r + 1442695040888963407) % (2 ^ 64)

/-- Modelled from the spec: draw a pseudo-random index below `n`, returning
the index and the advanced generator state. -/
def randBelow (r n : Nat) : Nat × Nat :=
  let r' := randNext r
  (r' % n, r')

/-- Exchange the elements at positions `i` and `j` (the `l[i], l[j] =
l[j], l[i]` swap inside a Fisher-Yates shuffle). -/
def listSwap (l : List α) (i j : Nat) : List α :=
  match l.get? i, l.get? j with
  | some a, some b => (l.set i b).set j a
  | _, _ => l

/-- The descending Fisher-Yates loop: swap position `i+1` with a random
position in `[0, i+1]`, then recurse on `i`. -/
def shuffleGo : List α → Nat → Nat → List α × Nat
  | l, r, 0 => (l, r)
  | l, r, i + 1 =>
      let jr := randBelow r (i + 2)
      shuffleGo (listSwap l (i + 1) jr.1) jr.2 i

/-- Modelled from the spec: `random.shuffle` (standard library), the
Fisher-Yates shuffle driven by the seeded generator; returns the shuffled
list and the advanced generator state (the one `Random` object is used for
both the player shuffle and the deck shuffle in sequence). -/
def shuffle (l : List α) (r : Nat) : List α × Nat :=
  shuffleGo l r (l.length - 1)

/-- The `for i, player in enumerate(self.players)` loop of `Game.__init__`:
assign number `i + 1` to the player at position `i` (grids were initialised
by `Player.__init__`). -/
def numberPlayers : Nat → List Nat → List PlayerState
  | _, [] => []
  | i, pid :: rest => ⟨pid, i + 1, initGrid⟩ :: numberPlayers (i + 1) rest

/-- `Game.__init__(players, seed)`: shuffle the player order, shuffle the
deck, assign numbers, seed group 0 with `players[0] .. players[3]` and no
tiles, and draw the first four tiles into group 1. Building group 0 indexes
`players[i]` for `i in range(0, 4)`, which raises `IndexError` (`none`)
when fewer than four players were supplied. -/
def mkGame (pids : List Nat) (seed : Nat) : Option GameState :=
  let sr := shuffle pids (randNext seed)
  let players := numberPlayers 0 sr.1
  let dr := shuffle ALL_TILES sr.2
  if 4 ≤ players.length then
    let ds := draw dr.1
    some ⟨players, ds.1, [(none, some 0), (none, some 1), (none, some 2), (none, some 3)], ds.2⟩
  else none

/-- A full headless game as in `test2()`: four default players, stepped to
completion (500 steps of fuel far exceeds a full game), returning the log
events and each player's final score in player-list order. -/
def runGame (seed : Nat) : List GEvent × List Nat :=
  match mkGame [1, 2, 3, 4] seed with
  | none => ([], [])
  | some st =>
      let r := stepsTrace (fun _ => defaultStrategy) 500 st
      (r.1, r.2.players.map fun pst => score pst.grid engineFuel)

/-- The sequence of tile assignments of a run: which player number claimed
which tile number, in order. -/
def assignments (seed : Nat) : List (Nat × Nat) :=
  (runGame seed).1.filterMap fun e =>
    match e with
    | .chose p t => some (p, t)
    | _ => none

/-- The final scores of a run, in player-list order. -/
def finalScores (seed : Nat) : List Nat :=
  (runGame seed).2

/-- Exactly one `BASE` cell exists among in-range coordinates, at the
origin. -/
def oneBaseAtOrigin (g : Grid) : Prop :=
  envAt g ((0 : Int), (0 : Int)) = .BASE ∧
  ∀ c : Coord, inRange c → envAt g c = .BASE → c = ((0 : Int), (0 : Int))

/-- The bounding box of in-range non-empty cells spans at most `n` from min
to max on each axis (`n = 4` is a 5-cell-wide footprint). -/
def spanLe (g : Grid) (n : Int) : Prop :=
  ∀ c c' : Coord, inRange c → inRange c' →
    envAt g c ≠ .EMPTY → envAt g c' ≠ .EMPTY →
    c.1 - c'.1 ≤ n ∧ c.2 - c'.2 ≤ n

/-- A grid with the base at the origin and one wheat cell at `(1, 0)` (the
state after the first cell of a wheat tile lands beside the castle). -/
def bugGrid : Grid :=
  fun c => if c = ((0 : Int), (0 : Int)) then ⟨.BASE, 0⟩
    else if c = ((1 : Int), (0 : Int)) then ⟨.WHEAT, 0⟩
    else ⟨.EMPTY, 0⟩

/-- A finished game: empty deck, all group-0 slots cleared. -/
def doneState : GameState :=
  ⟨[⟨1, 1, initGrid⟩, ⟨2, 2, initGrid⟩, ⟨3, 3, initGrid⟩, ⟨4, 4, initGrid⟩],
   [], [(none, none), (none, none), (none, none), (none, none)], []⟩

/-- Tile 13 of the catalog, as a standalone constant for concrete states. -/
def t13c : Tile := mkTile 13 .WHEAT 0 .FOREST 0

/-- Tile 20 of the catalog. -/
def t20c : Tile := mkTile 20 .WHEAT 1 .OCEAN 0

/-- Tile 24 of the catalog. -/
def t24c : Tile := mkTile 24 .FOREST 1 .WHEAT 0

/-- Tile 30 of the catalog. -/
def t30c : Tile := mkTile 30 .OCEAN 1 .WHEAT 0

/-- A placing state: player 0 is active with pending tile 13 and has already
chosen their next tile in group 1. -/
def cexState : GameState :=
  ⟨[⟨1, 1, initGrid⟩], [],
   [(some t13c, some 0), (none, none), (none, none), (none, none)],
   [(some t20c, some 0), (some t24c, none), (some t30c, none), (none, none)]⟩

/-- A strategy that returns a placement the engine never offered: the
disconnected pair `((3,3),(3,2))`. -/
def cexStrategy : Strategy :=
  ⟨fun _ => none, fun _ _ => some (((3 : Int), (3 : Int)), ((3 : Int), (2 : Int)))⟩

/-- A selecting state: player 0 is active and has not chosen yet, while
player 1 already claimed tile 13 in group 1. -/
def chooseState : GameState :=
  ⟨[⟨1, 1, initGrid⟩, ⟨2, 2, initGrid⟩], [],
   [(none, some 0), (none, some 1), (none, none), (none, none)],
   [(some t13c, some 1), (some t20c, none), (some t24c, none), (some t30c, none)]⟩

/-- A strategy that chooses tile 13 — a tile that is not among the offered
candidates because another player already claimed it. -/
def stealStrategy : Strategy :=
  ⟨fun _ => some t13c, fun _ _ => none⟩

/-- What `Game.__init__` guarantees when it succeeds: the players are the
shuffled input with numbers `1..N` and fresh grids, group 0 holds the first
four shuffled players and no tiles, group 1 holds four freshly drawn
player-less tiles, and no tile was lost or duplicated. -/
def mkGameOK (pids : List Nat) (seed : Nat) : Prop :=
  ∃ st, mkGame pids seed = some st ∧
    st.players.map (fun p => p.pid) = (shuffle pids (randNext seed)).1 ∧
    (st.players.map fun p => p.pid).Perm pids ∧
    st.players.map (fun p => p.number) = List.range' 1 pids.length ∧
    (∀ p ∈ st.players, p.grid = initGrid) ∧
    st.slots0 = [(none, some 0), (none, some 1), (none, some 2), (none, some 3)] ∧
    (∀ sl ∈ st.slots1, sl.2 = none) ∧
    st.slots1.length = 4 ∧
    (st.deck ++ st.slots1.filterMap fun sl => sl.1).Perm ALL_TILES

/-- Every group-0 slot without a player scans to no active player. -/
theorem findActive_none (slots0 : List Slot) (h : ∀ sl ∈ slots0, sl.2 = none) :
    findActive slots0 = none := by
  induction slots0 with
  | nil => rfl
  | cons sl rest ih =>
      obtain ⟨t, pl⟩ := sl
      have hpl : pl = none := h (t, pl) (List.mem_cons_self _ _)
      subst hpl
      exact ih fun sl hsl => h sl (List.mem_cons_of_mem _ hsl)

/-- C9: `at(x, y)` fails with an assertion (OutOfRange) whenever `x` or `y`
falls outside `[-4, 4]` — in particular it never returns a default or
clamped cell — and returns the stored cell for every in-range coordinate. -/
theorem at_range_contract (g : Grid) (x y : Int) :
    ((x ≤ -5 ∨ 5 ≤ x ∨ y ≤ -5 ∨ 5 ≤ y) → at_ g x y = none) ∧
    ((-4 ≤ x ∧ x ≤ 4 ∧ -4 ≤ y ∧ y ≤ 4) → at_ g x y = some (g (x, y))) := by
  constructor
  · intro h
    unfold at_
    rw [if_neg (by omega)]
  · intro h
    unfold at_
    rw [if_pos (by omega)]

/-- Witness for C9 at `(5, 0)`, `(-5, 0)` and the origin. -/
theorem at_range_contract_witness :
    at_ initGrid 5 0 = none ∧ at_ initGrid (-5) 0 = none ∧
    at_ initGrid 0 0 = some ⟨.BASE, 0⟩ := by
  refine ⟨(at_range_contract initGrid 5 0).1 (by omega),
          (at_range_contract initGrid (-5) 0).1 (by omega), ?_⟩
  rw [(at_range_contract initGrid 0 0).2 (by omega)]
  decide

/-- C10: the built-in default `choose_tile` returns the first offered tile,
never the no-decision sentinel, and under the engine's ascending ordering
that first tile has the lowest number. -/
theorem default_choose_first (choices : List Tile) (h : choices ≠ []) :
    choose_tile choices = some (choices.head h) ∧
    choose_tile choices ≠ none ∧
    (List.Pairwise (fun a b => a.number ≤ b.number) choices →
      ∀ t ∈ choices, (choices.head h).number ≤ t.number) := by
  match choices with
  | [] => exact absurd rfl h
  | c :: rest =>
      refine ⟨rfl, by simp [choose_tile], ?_⟩
      intro hs t ht
      rcases List.mem_cons.mp ht with rfl | ht'
      · exact le_refl _
      · exact (List.pairwise_cons.mp hs).1 t ht'

/-- Witness for C10 on a concrete two-tile offer. -/
theorem default_choose_first_witness :
    (([t13c, t20c] : List Tile) ≠ [] ∧
      List.Pairwise (fun a b => a.number ≤ b.number) [t13c, t20c]) ∧
    (choose_tile [t13c, t20c] = some (([t13c, t20c] : List Tile).head (by decide)) ∧
      choose_tile [t13c, t20c] ≠ none ∧
      ∀ t ∈ ([t13c, t20c] : List Tile),
        (([t13c, t20c] : List Tile).head (by decide)).number ≤ t.number) := by
  have h := default_choose_first [t13c, t20c] (by decide)
  exact ⟨⟨by decide, by decide⟩, h.1, h.2.1, h.2.2 (by decide)⟩

/-- C3 (bug evaluation): on `bugGrid` the search yields the origin twice —
`hist = set(q[0])` fails to mark the origin visited, so it is re-enqueued
from its wheat neighbour. -/
theorem search_revisits_origin :
    search bugGrid 200 =
      [((0 : Int), (0 : Int)), ((1 : Int), (0 : Int)), ((0 : Int), (0 : Int))] ∧
    (search bugGrid 200).count ((0 : Int), (0 : Int)) = 2 := by
  constructor
  · decide
  · decide

/-- C6: the run of a game — construction from a seed, stepping four default
players to completion, collecting assignments and scores — is a pure
function of the seed: equal seeds give identical assignment sequences and
identical final scores. -/
theorem run_deterministic (s1 s2 : Nat) (h : s1 = s2) :
    assignments s1 = assignments s2 ∧ finalScores s1 = finalScores s2 := by
  subst h
  exact ⟨rfl, rfl⟩

/-- Witness for C6 at seed 7. -/
theorem run_deterministic_witness :
    (7 : Nat) = 7 ∧ assignments 7 = assignments 7 ∧ finalScores 7 = finalScores 7 :=
  ⟨rfl, (run_deterministic 7 7 rfl).1, (run_deterministic 7 7 rfl).2⟩

/-- C5: with the deck empty and every group-0 slot cleared, `step` reports
the game over and returns the state unchanged, and any number of further
calls to `step` keeps returning the very same state. -/
theorem step_finished_fixpoint (strats : Nat → Strategy) (s : GameState)
    (hdeck : s.deck = [])
    (hclear : ∀ sl ∈ s.slots0, sl = ((none : Option Tile), (none : Option Nat))) :
    step strats s = some (false, s, []) ∧ ∀ n, advanceN strats n s = some s := by
  have hfa : findActive s.slots0 = none :=
    findActive_none _ fun sl hsl => by rw [hclear sl hsl]
  have hstep : step strats s = some (false, s, []) := by
    unfold step
    rw [hfa, hdeck]
    rfl
  refine ⟨hstep, ?_⟩
  intro n
  induction n with
  | zero => rfl
  | succ n ih =>
      show (advance strats s).bind (advanceN strats n) = some s
      unfold advance
      rw [hstep]
      simpa using ih

/-- Witness for C5 on `doneState`, iterated three further steps. -/
theorem step_finished_fixpoint_witness :
    (doneState.deck = [] ∧
      ∀ sl ∈ doneState.slots0, sl = ((none : Option Tile), (none : Option Nat))) ∧
    step (fun _ => defaultStrategy) doneState = some (false, doneState, []) ∧
    advanceN (fun _ => defaultStrategy) 3 doneState = some doneState := by
  refine ⟨⟨rfl, by decide⟩, ?_, ?_⟩
  · exact (step_finished_fixpoint _ _ rfl (by decide)).1
  · exact (step_finished_fixpoint _ _ rfl (by decide)).2 3

/-- Everything the candidate loop yields came from the candidate stream and
passed all three filters. -/
theorem mem_enumGo {g : Grid} {b : BBox} {tile : Tile} :
    ∀ {cands hist : List Placing} {p : Placing}, p ∈ enumGo g b tile cands hist →
      p ∈ cands ∧ placingOK g b tile p = true := by
  intro cands
  induction cands with
  | nil => intro hist p hp; simp [enumGo] at hp
  | cons q rest ih =>
      intro hist p hp
      simp only [enumGo] at hp
      by_cases hq : q ∈ hist
      · rw [if_pos hq] at hp
        obtain ⟨h1, h2⟩ := ih hp
        exact ⟨List.mem_cons_of_mem _ h1, h2⟩
      · rw [if_neg hq] at hp
        by_cases hok : placingOK g b tile q = true
        · rw [if_pos hok] at hp
          rcases List.mem_cons.mp hp with rfl | hp'
          · exact ⟨List.mem_cons_self _ _, hok⟩
          · obtain ⟨h1, h2⟩ := ih hp'
            exact ⟨List.mem_cons_of_mem _ h1, h2⟩
        · rw [if_neg hok] at hp
          obtain ⟨h1, h2⟩ := ih hp
          exact ⟨List.mem_cons_of_mem _ h1, h2⟩

/-- Folding the bounding-box scan never shrinks the box. -/
theorem bbox_foldl_bounds (g : Grid) :
    ∀ (l : List Coord) (b : BBox),
      (l.foldl (bboxStep g) b).min_x ≤ b.min_x ∧ b.max_x ≤ (l.foldl (bboxStep g) b).max_x ∧
      (l.foldl (bboxStep g) b).min_y ≤ b.min_y ∧ b.max_y ≤ (l.foldl (bboxStep g) b).max_y := by
  intro l
  induction l with
  | nil => intro b; simp
  | cons c t ih =>
      intro b
      have hstep : (bboxStep g b c).min_x ≤ b.min_x ∧ b.max_x ≤ (bboxStep g b c).max_x ∧
          (bboxStep g b c).min_y ≤ b.min_y ∧ b.max_y ≤ (bboxStep g b c).max_y := by
        unfold bboxStep
        split
        · exact ⟨min_le_right _ _, le_max_right _ _, min_le_right _ _, le_max_right _ _⟩
        · exact ⟨le_refl _, le_refl _, le_refl _, le_refl _⟩
      obtain ⟨a1, a2, a3, a4⟩ := ih (bboxStep g b c)
      obtain ⟨b1, b2, b3, b4⟩ := hstep
      simp only [List.foldl_cons]
      exact ⟨le_trans a1 b1, le_trans b2 a2, le_trans a3 b3, le_trans b4 a4⟩

/-- The computed box always contains 0 on both axes (the seeds). -/
theorem bbox_zero (g : Grid) :
    (bbox g).min_x ≤ 0 ∧ 0 ≤ (bbox g).max_x ∧ (bbox g).min_y ≤ 0 ∧ 0 ≤ (bbox g).max_y := by
  have h := bbox_foldl_bounds g gridCoords ⟨0, 0, 0, 0⟩
  exact h

/-- The fold covers every non-empty member of the scanned list. -/
theorem bbox_foldl_covers (g : Grid) :
    ∀ (l : List Coord) (b : BBox) (c : Coord), c ∈ l → envAt g c ≠ .EMPTY →
      (l.foldl (bboxStep g) b).min_x ≤ c.1 ∧ c.1 ≤ (l.foldl (bboxStep g) b).max_x ∧
      (l.foldl (bboxStep g) b).min_y ≤ c.2 ∧ c.2 ≤ (l.foldl (bboxStep g) b).max_y := by
  intro l
  induction l with
  | nil => intro b c hc; simp at hc
  | cons d t ih =>
      intro b c hc hne
      simp only [List.foldl_cons]
      rcases List.mem_cons.mp hc with rfl | hc'
      · have hstep : (bboxStep g b c).min_x ≤ c.1 ∧ c.1 ≤ (bboxStep g b c).max_x ∧
            (bboxStep g b c).min_y ≤ c.2 ∧ c.2 ≤ (bboxStep g b c).max_y := by
          unfold bboxStep
          rw [if_pos hne]
          exact ⟨min_le_left _ _, le_max_left _ _, min_le_left _ _, le_max_left _ _⟩
        obtain ⟨a1, a2, a3, a4⟩ := bbox_foldl_bounds g t (bboxStep g b c)
        obtain ⟨b1, b2, b3, b4⟩ := hstep
        exact ⟨le_trans a1 b1, le_trans b2 a2, le_trans a3 b3, le_trans b4 a4⟩
      · exact ih (bboxStep g b d) c hc' hne

/-- Every in-range coordinate appears in the scan order. -/
theorem mem_gridCoords {c : Coord} (h : inRange c) : c ∈ gridCoords := by
  obtain ⟨x, y⟩ := c
  have h1 : -4 ≤ x := h.1
  have h2 : x ≤ 4 := h.2.1
  have h3 : -4 ≤ y := h.2.2.1
  have h4 : y ≤ 4 := h.2.2.2
  have hx : x = (((x + 4).toNat : Int)) - 4 := by omega
  have hy : y = (((y + 4).toNat : Int)) - 4 := by omega
  have hj : (y + 4).toNat ∈ List.range 9 := List.mem_range.mpr (by omega)
  have hi : (x + 4).toNat ∈ List.range 9 := List.mem_range.mpr (by omega)
  unfold gridCoords
  rw [hx, hy]
  exact List.mem_flatMap.mpr ⟨(y + 4).toNat, hj,
    List.mem_map_of_mem (fun i : Nat => (((i : Int) - 4, (((y + 4).toNat : Int)) - 4) : Coord)) hi⟩

/-- The box computed by the enumerator bounds every in-range non-empty
cell. -/
theorem bbox_covers (g : Grid) (c : Coord) (hin : inRange c) (hne : envAt g c ≠ .EMPTY) :
    (bbox g).min_x ≤ c.1 ∧ c.1 ≤ (bbox g).max_x ∧
    (bbox g).min_y ≤ c.2 ∧ c.2 ≤ (bbox g).max_y :=
  bbox_foldl_covers g gridCoords _ c (mem_gridCoords hin) hne

/-- Passing the 5×5 test bounds the extended window to a span of 4. -/
theorem fits5x5_window {b : BBox} {p : Placing} (h : fits5x5 b p = true) :
    max b.max_x (max p.1.1 p.2.1) - min b.min_x (min p.1.1 p.2.1) ≤ 4 ∧
    max b.max_y (max p.1.2 p.2.2) - min b.min_y (min p.1.2 p.2.2) ≤ 4 := by
  simp only [fits5x5] at h
  split at h
  · simp at h
  · next hcond =>
      push_neg at hcond
      omega

/-- A placing that passed all three filters has both coordinates in range
and both target cells empty. -/
theorem placingOK_facts {g : Grid} {tile : Tile} {p : Placing}
    (h : placingOK g (bbox g) tile p = true) :
    inRange p.1 ∧ inRange p.2 ∧ envAt g p.1 = .EMPTY ∧ envAt g p.2 = .EMPTY := by
  have hz := bbox_zero g
  simp only [placingOK, Bool.and_eq_true] at h
  obtain ⟨⟨hfit, hcol⟩, _⟩ := h
  have hw := fits5x5_window hfit
  have hemp : envAt g p.1 = .EMPTY ∧ envAt g p.2 = .EMPTY := by
    simp only [collides, Bool.not_eq_true', List.any_cons, List.any_nil,
      Bool.or_false, Bool.or_eq_false_iff, decide_eq_false_iff_not, not_not] at hcol
    exact hcol
  have e1 : min (bbox g).min_x (min p.1.1 p.2.1) ≤ (bbox g).min_x := min_le_left _ _
  have e2 : (bbox g).max_x ≤ max (bbox g).max_x (max p.1.1 p.2.1) := le_max_left _ _
  have e3 : min (bbox g).min_x (min p.1.1 p.2.1) ≤ p.1.1 :=
    le_trans (min_le_right _ _) (min_le_left _ _)
  have e4 : p.1.1 ≤ max (bbox g).max_x (max p.1.1 p.2.1) :=
    le_trans (le_max_left _ _) (le_max_right _ _)
  have e5 : min (bbox g).min_x (min p.1.1 p.2.1) ≤ p.2.1 :=
    le_trans (min_le_right _ _) (min_le_right _ _)
  have e6 : p.2.1 ≤ max (bbox g).max_x (max p.1.1 p.2.1) :=
    le_trans (le_max_right _ _) (le_max_right _ _)
  have f1 : min (bbox g).min_y (min p.1.2 p.2.2) ≤ (bbox g).min_y := min_le_left _ _
  have f2 : (bbox g).max_y ≤ max (bbox g).max_y (max p.1.2 p.2.2) := le_max_left _ _
  have f3 : min (bbox g).min_y (min p.1.2 p.2.2) ≤ p.1.2 :=
    le_trans (min_le_right _ _) (min_le_left _ _)
  have f4 : p.1.2 ≤ max (bbox g).max_y (max p.1.2 p.2.2) :=
    le_trans (le_max_left _ _) (le_max_right _ _)
  have f5 : min (bbox g).min_y (min p.1.2 p.2.2) ≤ p.2.2 :=
    le_trans (min_le_right _ _) (min_le_right _ _)
  have f6 : p.2.2 ≤ max (bbox g).max_y (max p.1.2 p.2.2) :=
    le_trans (le_max_right _ _) (le_max_right _ _)
  obtain ⟨z1, z2, z3, z4⟩ := hz
  obtain ⟨w1, w2⟩ := hw
  exact ⟨⟨by omega, by omega, by omega, by omega⟩,
    ⟨by omega, by omega, by omega, by omega⟩, hemp.1, hemp.2⟩

/-- Every catalog tile's two cells carry a placeable terrain type: never
`EMPTY`, never `BASE`. -/
theorem tiles_env : ∀ t ∈ ALL_TILES,
    t.cells.1.environment ≠ .EMPTY ∧ t.cells.1.environment ≠ .BASE ∧
    t.cells.2.environment ≠ .EMPTY ∧ t.cells.2.environment ≠ .BASE := by
  decide

/-- Direct indices resolve without wrapping. -/
theorem pyIdx10_in (i : Int) (h : 0 ≤ i ∧ i < 10) : pyIdx10 i = some i := by
  unfold pyIdx10
  rw [if_pos h]

/-- For an in-range coordinate `set_cell` succeeds and is the pointwise
update of that coordinate. -/
theorem set_cell_in (g : Grid) (coord : Coord) (cell : Cell) (h : inRange coord) :
    set_cell g coord cell =
      some (fun c => if c.1 = coord.1 ∧ c.2 = coord.2 then cell else g c) := by
  obtain ⟨h1, h2, h3, h4⟩ := h
  unfold set_cell
  rw [pyIdx10_in (coord.1 + 5) (by omega), pyIdx10_in (coord.2 + 5) (by omega)]
  refine congrArg some (funext fun c => ?_)
  have hiff : (c.1 + 5 = coord.1 + 5 ∧ c.2 + 5 = coord.2 + 5) ↔
      (c.1 = coord.1 ∧ c.2 = coord.2) := by
    constructor <;> intro hh <;> omega
  simp only [hiff]

/-- For an in-range placement `set_tile` succeeds and writes the tile's two
cells at the two coordinates (the second write shadowing the first at equal
coordinates, as in the source). -/
theorem set_tile_in (g : Grid) (p : Placing) (tile : Tile)
    (h1 : inRange p.1) (h2 : inRange p.2) :
    set_tile g p tile = some (fun c =>
      if c.1 = p.2.1 ∧ c.2 = p.2.2 then tile.cells.2
      else if c.1 = p.1.1 ∧ c.2 = p.1.2 then tile.cells.1
      else g c) := by
  unfold set_tile
  rw [set_cell_in g p.1 tile.cells.1 h1]
  simp only [Option.some_bind]
  rw [set_cell_in _ p.2 tile.cells.2 h2]

/-- C1: every placing yielded by the enumerator (and hence every member of
the `valid_placings` set) has both coordinates inside `[-4,4]` on each axis
and both target cells empty in the grid at enumeration time. -/
theorem enumerate_in_range_unoccupied (g : Grid) (tile : Tile) (fuel : Nat) (p : Placing)
    (hp : p ∈ valid_placings g tile fuel) :
    inRange p.1 ∧ inRange p.2 ∧ envAt g p.1 = .EMPTY ∧ envAt g p.2 = .EMPTY := by
  have hp' : p ∈ enumGo g (bbox g) tile ((search g fuel).flatMap tile_adj) [] := hp
  exact placingOK_facts (mem_enumGo hp').2

/-- Witness for C1: a double-wheat tile directly right of the base on a
fresh grid. -/
theorem enumerate_in_range_unoccupied_witness :
    ((((1 : Int), (0 : Int)), ((2 : Int), (0 : Int))) ∈
      valid_placings initGrid (mkTile 1 .WHEAT 0 .WHEAT 0) 200) ∧
    (inRange ((1 : Int), (0 : Int)) ∧ inRange ((2 : Int), (0 : Int)) ∧
      envAt initGrid ((1 : Int), (0 : Int)) = .EMPTY ∧
      envAt initGrid ((2 : Int), (0 : Int)) = .EMPTY) :=
  ⟨by decide,
   enumerate_in_range_unoccupied initGrid (mkTile 1 .WHEAT 0 .WHEAT 0) 200
     ((((1 : Int), (0 : Int)), ((2 : Int), (0 : Int)))) (by decide)⟩

/-- The fresh grid has its single base at the origin. -/
theorem initGrid_oneBase : oneBaseAtOrigin initGrid := by
  constructor
  · decide
  · intro c hc hb
    by_cases h : c = ((0 : Int), (0 : Int))
    · exact h
    · exfalso
      simp only [envAt, initGrid, if_neg h] at hb
      exact absurd hb (by decide)

/-- The fresh grid trivially satisfies the 5×5 footprint bound. -/
theorem initGrid_span : spanLe initGrid 4 := by
  intro c c' hc hc' hne hne'
  have h1 : c = ((0 : Int), (0 : Int)) := by
    by_contra h
    exact hne (by simp only [envAt, initGrid, if_neg h])
  have h2 : c' = ((0 : Int), (0 : Int)) := by
    by_contra h
    exact hne' (by simp only [envAt, initGrid, if_neg h])
  rw [h1, h2]
  exact ⟨by decide, by decide⟩

/-- C2: applying `set_tile` with any placement the enumerator yielded for a
catalog tile, on a grid with one base at the origin and a 5×5 footprint,
succeeds and preserves both invariants: still exactly one base cell, at the
origin, and the non-empty bounding box still spans at most 5 cells per
axis. -/
theorem placement_preserves_invariants (g : Grid) (tile : Tile) (fuel : Nat) (p : Placing)
    (hbase : oneBaseAtOrigin g) (hspan : spanLe g 4)
    (ht : tile ∈ ALL_TILES) (hp : p ∈ valid_placings g tile fuel) :
    ∃ g', set_tile g p tile = some g' ∧ oneBaseAtOrigin g' ∧ spanLe g' 4 := by
  have hp' : p ∈ enumGo g (bbox g) tile ((search g fuel).flatMap tile_adj) [] := hp
  have hok := (mem_enumGo hp').2
  obtain ⟨hr1, hr2, he1, he2⟩ := placingOK_facts hok
  obtain ⟨ht1, ht2, ht3, ht4⟩ := tiles_env tile ht
  have hfit : fits5x5 (bbox g) p = true := by
    simp only [placingOK, Bool.and_eq_true] at hok
    exact hok.1.1
  refine ⟨_, set_tile_in g p tile hr1 hr2, ⟨?_, ?_⟩, ?_⟩
  · -- the origin still holds the base
    have hne2 : ¬((0 : Int) = p.2.1 ∧ (0 : Int) = p.2.2) := by
      rintro ⟨u, v⟩
      have hpe : p.2 = ((0 : Int), (0 : Int)) := Prod.ext_iff.mpr ⟨u.symm, v.symm⟩
      rw [hpe] at he2
      exact absurd (hbase.1.symm.trans he2) (by decide)
    have hne1 : ¬((0 : Int) = p.1.1 ∧ (0 : Int) = p.1.2) := by
      rintro ⟨u, v⟩
      have hpe : p.1 = ((0 : Int), (0 : Int)) := Prod.ext_iff.mpr ⟨u.symm, v.symm⟩
      rw [hpe] at he1
      exact absurd (hbase.1.symm.trans he1) (by decide)
    show (if (0 : Int) = p.2.1 ∧ (0 : Int) = p.2.2 then tile.cells.2
      else if (0 : Int) = p.1.1 ∧ (0 : Int) = p.1.2 then tile.cells.1
      else g ((0 : Int), (0 : Int))).environment = .BASE
    rw [if_neg hne2, if_neg hne1]
    exact hbase.1
  · -- no second base appears
    intro c hc hcb
    have hcb' : (if c.1 = p.2.1 ∧ c.2 = p.2.2 then tile.cells.2
        else if c.1 = p.1.1 ∧ c.2 = p.1.2 then tile.cells.1
        else g c).environment = .BASE := hcb
    by_cases k2 : c.1 = p.2.1 ∧ c.2 = p.2.2
    · rw [if_pos k2] at hcb'
      exact absurd hcb' ht4
    · rw [if_neg k2] at hcb'
      by_cases k1 : c.1 = p.1.1 ∧ c.2 = p.1.2
      · rw [if_pos k1] at hcb'
        exact absurd hcb' ht2
      · rw [if_neg k1] at hcb'
        exact hbase.2 c hc hcb'
  · -- footprint still within 5×5
    intro c c' hc hc' hne hne'
    have key : ∀ d : Coord, inRange d →
        (if d.1 = p.2.1 ∧ d.2 = p.2.2 then tile.cells.2
          else if d.1 = p.1.1 ∧ d.2 = p.1.2 then tile.cells.1
          else g d).environment ≠ .EMPTY →
        min (bbox g).min_x (min p.1.1 p.2.1) ≤ d.1 ∧
        d.1 ≤ max (bbox g).max_x (max p.1.1 p.2.1) ∧
        min (bbox g).min_y (min p.1.2 p.2.2) ≤ d.2 ∧
        d.2 ≤ max (bbox g).max_y (max p.1.2 p.2.2) := by
      intro d hd hdne
      by_cases k2 : d.1 = p.2.1 ∧ d.2 = p.2.2
      · obtain ⟨u, v⟩ := k2
        rw [u, v]
        exact ⟨le_trans (min_le_right _ _) (min_le_right _ _),
          le_trans (le_max_right _ _) (le_max_right _ _),
          le_trans (min_le_right _ _) (min_le_right _ _),
          le_trans (le_max_right _ _) (le_max_right _ _)⟩
      · rw [if_neg k2] at hdne
        by_cases k1 : d.1 = p.1.1 ∧ d.2 = p.1.2
        · obtain ⟨u, v⟩ := k1
          rw [u, v]
          exact ⟨le_trans (min_le_right _ _) (min_le_left _ _),
            le_trans (le_max_left _ _) (le_max_right _ _),
            le_trans (min_le_right _ _) (min_le_left _ _),
            le_trans (le_max_left _ _) (le_max_right _ _)⟩
        · rw [if_neg k1] at hdne
          have hb := bbox_covers g d hd hdne
          exact ⟨le_trans (min_le_left _ _) hb.1, le_trans hb.2.1 (le_max_left _ _),
            le_trans (min_le_left _ _) hb.2.2.1, le_trans hb.2.2.2 (le_max_left _ _)⟩
    have kc := key c hc hne
    have kc' := key c' hc' hne'
    obtain ⟨w1, w2⟩ := fits5x5_window hfit
    obtain ⟨a1, a2, a3, a4⟩ := kc
    obtain ⟨b1, b2, b3, b4⟩ := kc'
    exact ⟨by omega, by omega⟩

/-- Witness for C2: tile 1 placed at `((1,0),(2,0))` on a fresh grid. -/
theorem placement_preserves_invariants_witness :
    (oneBaseAtOrigin initGrid ∧ spanLe initGrid 4 ∧
      mkTile 1 .WHEAT 0 .WHEAT 0 ∈ ALL_TILES ∧
      ((((1 : Int), (0 : Int)), ((2 : Int), (0 : Int))) ∈
        valid_placings initGrid (mkTile 1 .WHEAT 0 .WHEAT 0) 200)) ∧
    ∃ g', set_tile initGrid ((((1 : Int), (0 : Int)), ((2 : Int), (0 : Int))))
        (mkTile 1 .WHEAT 0 .WHEAT 0) = some g' ∧
      oneBaseAtOrigin g' ∧ spanLe g' 4 :=
  ⟨⟨initGrid_oneBase, initGrid_span, by decide, by decide⟩,
   placement_preserves_invariants initGrid (mkTile 1 .WHEAT 0 .WHEAT 0) 200
     ((((1 : Int), (0 : Int)), ((2 : Int), (0 : Int))))
     initGrid_oneBase initGrid_span (by decide) (by decide)⟩

/-- C4 (amended): in a placing step, `step` applies whatever non-null
placement the strategy returns — there is no membership validation against
the offered set. The returned placement is written to the active player's
grid via `set_tile` and the slot is cleared. -/
theorem step_applies_returned_placement (strats : Nat → Strategy) (s : GameState)
    (t : Tile) (p : Nat) (pst : PlayerState) (pl : Placing)
    (hfa : findActive s.slots0 = some (some t, p))
    (hch : (s.slots1.any fun sl => sl.2 = some p) = true)
    (hpst : s.players.get? p = some pst)
    (hne : (valid_placings pst.grid t engineFuel).isEmpty = false)
    (hpl : (strats p).place_tile t (valid_placings pst.grid t engineFuel) = some pl)
    (hr1 : inRange pl.1) (hr2 : inRange pl.2) :
    ∃ g', set_tile pst.grid pl t = some g' ∧
      step strats s = some (true,
        { s with players := s.players.set p { pst with grid := g' },
                 slots0 := clearSlot0 s.slots0 p },
        [.placed pst.number t.number pl]) := by
  refine ⟨_, set_tile_in pst.grid pl t hr1 hr2, ?_⟩
  unfold step
  rw [hfa]
  simp only [hch, if_true, hpst, hne, Bool.false_eq_true, if_false, hpl,
    set_tile_in pst.grid pl t hr1 hr2]

/-- C4 (counterexample): `cexStrategy` returns the disconnected placement
`((3,3),(3,2))`, which is not among the offered placings, yet `step`
mutates the grid with it: the wheat and forest cells of tile 13 land at
`(3,3)` and `(3,2)`. -/
theorem step_applies_illegal_placement_cex :
    ((((3 : Int), (3 : Int)), ((3 : Int), (2 : Int))) ∉
      valid_placings initGrid t13c engineFuel) ∧
    ((step (fun _ => cexStrategy) cexState).map fun r =>
        (r.1, (r.2.1.players.get? 0).map fun pst =>
          ((pst.grid ((3 : Int), (3 : Int))).environment,
           (pst.grid ((3 : Int), (2 : Int))).environment))) =
      some (true, some (.WHEAT, .FOREST)) := by
  constructor
  · decide
  · decide

/-- Witness for C4 on the concrete `cexState`. -/
theorem step_applies_returned_placement_witness :
    (findActive cexState.slots0 = some (some t13c, 0) ∧
      (cexState.slots1.any fun sl => sl.2 = some 0) = true ∧
      cexState.players.get? 0 = some ⟨1, 1, initGrid⟩ ∧
      (valid_placings initGrid t13c engineFuel).isEmpty = false ∧
      ((fun _ => cexStrategy) 0).place_tile t13c (valid_placings initGrid t13c engineFuel) =
        some ((((3 : Int), (3 : Int)), ((3 : Int), (2 : Int)))) ∧
      inRange ((3 : Int), (3 : Int)) ∧ inRange ((3 : Int), (2 : Int))) ∧
    ∃ g', set_tile initGrid ((((3 : Int), (3 : Int)), ((3 : Int), (2 : Int)))) t13c = some g' ∧
      step (fun _ => cexStrategy) cexState = some (true,
        { cexState with
            players := cexState.players.set 0 { pid := 1, number := 1, grid := g' },
            slots0 := clearSlot0 cexState.slots0 0 },
        [.placed 1 13 ((((3 : Int), (3 : Int)), ((3 : Int), (2 : Int))))]) :=
  ⟨⟨by decide, by decide, rfl, by decide, by decide, by decide, by decide⟩,
   step_applies_returned_placement (fun _ => cexStrategy) cexState t13c 0
     ⟨1, 1, initGrid⟩ ((((3 : Int), (3 : Int)), ((3 : Int), (2 : Int))))
     (by decide) (by decide) rfl (by decide) (by decide) (by decide) (by decide)⟩

/-- C7 (amended): in a selecting step, `step` records whatever non-null
choice the strategy returns into the first group-1 slot holding that tile —
with no validation that the tile was among the offered candidates — even
when that slot already carries another player's claim, which is
overwritten. -/
theorem step_writes_choice_unvalidated (strats : Nat → Strategy) (s : GameState)
    (wt : Option Tile) (p q i : Nat) (c : Tile)
    (hfa : findActive s.slots0 = some (wt, p))
    (hch : (s.slots1.any fun sl => sl.2 = some p) = false)
    (hc : (strats p).choose_tile
        ((s.slots1.filter fun sl => sl.2 = none).filterMap fun sl => sl.1) = some c)
    (hidx : s.slots1.findIdx? (fun sl => sl.1 = some c) = some i)
    (hq : s.slots1.get? i = some (some c, some q)) :
    step strats s = some (true, { s with slots1 := s.slots1.set i (some c, some p) },
      [.chose (numberOf s p) c.number]) := by
  unfold step
  rw [hfa]
  simp only [hch, Bool.false_eq_true, if_false, hc, writeChoice, hidx]

/-- C7 (counterexample): tile 13 is already claimed by player index 1 and
hence not among the offered candidates, yet when the active player's
strategy returns it, `step` writes `(tile 13, player 0)` into that slot,
overwriting the other player's claim. -/
theorem step_overwrites_claim_cex :
    (t13c ∉ (chooseState.slots1.filter fun sl => sl.2 = none).filterMap fun sl => sl.1) ∧
    ((step (fun _ => stealStrategy) chooseState).map fun r => (r.1, r.2.1.slots1)) =
      some (true, [(some t13c, some 0), (some t20c, none), (some t24c, none), (some t30c, none)]) := by
  constructor
  · decide
  · decide

/-- Witness for C7 on the concrete `chooseState`. -/
theorem step_writes_choice_unvalidated_witness :
    (findActive chooseState.slots0 = some (none, 0) ∧
      (chooseState.slots1.any fun sl => sl.2 = some 0) = false ∧
      ((fun _ => stealStrategy) 0).choose_tile
        ((chooseState.slots1.filter fun sl => sl.2 = none).filterMap fun sl => sl.1) =
        some t13c ∧
      chooseState.slots1.findIdx? (fun sl => sl.1 = some t13c) = some 0 ∧
      chooseState.slots1.get? 0 = some (some t13c, some 1)) ∧
    step (fun _ => stealStrategy) chooseState =
      some (true, { chooseState with slots1 := chooseState.slots1.set 0 (some t13c, some 0) },
        [.chose (numberOf chooseState 0) t13c.number]) :=
  ⟨⟨by decide, by decide, by decide, by decide, by decide⟩,
   step_writes_choice_unvalidated (fun _ => stealStrategy) chooseState none 0 1 0 t13c
     (by decide) (by decide) (by decide) (by decide) (by decide)⟩

/-- Consing a stored element in front of a list updated at its position is
a permutation of consing the new value. -/
theorem cons_set_perm (x b : α) : ∀ (t : List α) (j : Nat), t.get? j = some b →
    List.Perm (b :: t.set j x) (x :: t) := by
  intro t
  induction t with
  | nil => intro j h; simp at h
  | cons a t' ih =>
      intro j h
      cases j with
      | zero =>
          simp only [List.get?_cons_zero, Option.some.injEq] at h
          subst h
          simpa using List.Perm.swap x a t'
      | succ k =>
          simp only [List.get?_cons_succ] at h
          have hk := ih k h
          calc
            List.Perm (b :: a :: t'.set k x) (a :: b :: t'.set k x) := List.Perm.swap a b _
            _ = _ := rfl
            List.Perm _ (a :: x :: t') := hk.cons a
            List.Perm _ (x :: a :: t') := List.Perm.swap x a t'

/-- Writing the stored values back crosswise is a permutation (the swap
inside Fisher-Yates). -/
theorem set_set_perm : ∀ (l : List α) (i j : Nat) (a b : α),
    l.get? i = some a → l.get? j = some b → List.Perm ((l.set i b).set j a) l := by
  intro l
  induction l with
  | nil => intro i j a b hi; simp at hi
  | cons x t ih =>
      intro i j a b hi hj
      cases i with
      | zero =>
          simp only [List.get?_cons_zero, Option.some.injEq] at hi
          subst hi
          cases j with
          | zero =>
              simp only [List.get?_cons_zero, Option.some.injEq] at hj
              subst hj
              simp
          | succ k =>
              simp only [List.get?_cons_succ] at hj
              simpa using cons_set_perm x b t k hj
      | succ m =>
          cases j with
          | zero =>
              simp only [List.get?_cons_zero, Option.some.injEq] at hj
              subst hj
              simp only [List.get?_cons_succ] at hi
              simpa using cons_set_perm x a t m hi
          | succ k =>
              simp only [List.get?_cons_succ] at hi hj
              simpa using (ih m k a b hi hj).cons x

/-- A swap is a permutation. -/
theorem listSwap_perm (l : List α) (i j : Nat) : List.Perm (listSwap l i j) l := by
  unfold listSwap
  cases hi : l.get? i with
  | none => exact List.Perm.refl l
  | some a =>
      cases hj : l.get? j with
      | none => exact List.Perm.refl l
      | some b => exact set_set_perm l i j a b hi hj

/-- The Fisher-Yates loop permutes its input. -/
theorem shuffleGo_perm : ∀ (n : Nat) (l : List α) (r : Nat),
    List.Perm (shuffleGo l r n).1 l := by
  intro n
  induction n with
  | zero => intro l r; exact List.Perm.refl l
  | succ i ih =>
      intro l r
      exact (ih (listSwap l (i + 1) (randBelow r (i + 2)).1) (randBelow r (i + 2)).2).trans
        (listSwap_perm l (i + 1) _)

/-- The shuffle permutes its input. -/
theorem shuffle_perm (l : List α) (r : Nat) : List.Perm (shuffle l r).1 l :=
  shuffleGo_perm _ l r

/-- The shuffle preserves length. -/
theorem shuffle_length (l : List α) (r : Nat) : (shuffle l r).1.length = l.length :=
  (shuffle_perm l r).length_eq

/-- The numbering loop keeps the identity sequence. -/
theorem numberPlayers_map_pid : ∀ (i : Nat) (l : List Nat),
    (numberPlayers i l).map (fun p => p.pid) = l := by
  intro i l
  induction l generalizing i with
  | nil => rfl
  | cons a t ih => simp [numberPlayers, ih]

/-- The numbering loop assigns consecutive numbers starting at `i + 1`. -/
theorem numberPlayers_map_number : ∀ (i : Nat) (l : List Nat),
    (numberPlayers i l).map (fun p => p.number) = List.range' (i + 1) l.length := by
  intro i l
  induction l generalizing i with
  | nil => rfl
  | cons a t ih => simp [numberPlayers, List.range'_succ, ih]

/-- The numbering loop leaves every grid fresh. -/
theorem numberPlayers_grid : ∀ (i : Nat) (l : List Nat),
    ∀ p ∈ numberPlayers i l, p.grid = initGrid := by
  intro i l
  induction l generalizing i with
  | nil => intro p hp; simp [numberPlayers] at hp
  | cons a t ih =>
      intro p hp
      rcases List.mem_cons.mp hp with rfl | hp'
      · rfl
      · exact ih (i + 1) p hp'

/-- The numbering loop preserves length. -/
theorem numberPlayers_length : ∀ (i : Nat) (l : List Nat),
    (numberPlayers i l).length = l.length := by
  intro i l
  induction l generalizing i with
  | nil => rfl
  | cons a t ih => simp [numberPlayers, ih]

/-- Slot tiles of freshly drawn slots are the drawn tiles. -/
theorem filterMap_fst_map_slots (l : List Tile) :
    (l.map fun t => ((some t, none) : Slot)).filterMap (fun sl => sl.1) = l := by
  induction l with
  | nil => rfl
  | cons a t ih => simp [ih]

/-- C8 (amended): construction requires at least four players; given that,
it succeeds with the shuffled, numbered players, fresh grids, the four
group-0 player slots, four player-less drawn tiles in group 1, and no tile
lost or duplicated between deck and slots. -/
theorem mkGame_at_least_four (pids : List Nat) (seed : Nat) (h : 4 ≤ pids.length) :
    mkGameOK pids seed := by
  have hsl : (shuffle pids (randNext seed)).1.length = pids.length := shuffle_length _ _
  have hdl : (shuffle ALL_TILES (shuffle pids (randNext seed)).2).1.length = 48 := by
    rw [shuffle_length]
    rfl
  refine ⟨⟨numberPlayers 0 (shuffle pids (randNext seed)).1,
          (draw (shuffle ALL_TILES (shuffle pids (randNext seed)).2).1).1,
          [(none, some 0), (none, some 1), (none, some 2), (none, some 3)],
          (draw (shuffle ALL_TILES (shuffle pids (randNext seed)).2).1).2⟩,
    ?_, numberPlayers_map_pid 0 _, ?_, ?_, numberPlayers_grid 0 _, rfl, ?_, ?_, ?_⟩
  · have hc : 4 ≤ (numberPlayers 0 (shuffle pids (randNext seed)).1).length := by
      rw [numberPlayers_length, hsl]
      exact h
    simp only [mkGame]
    rw [if_pos hc]
  · rw [numberPlayers_map_pid]
    exact shuffle_perm pids _
  · rw [numberPlayers_map_number, hsl]
  · intro sl hsl'
    simp only [draw] at hsl'
    obtain ⟨t, _, rfl⟩ := List.mem_map.mp hsl'
    rfl
  · simp only [draw, List.length_map, List.length_mergeSort, List.length_drop, hdl]
  · simp only [draw, filterMap_fst_map_slots]
    have h1 := List.Perm.append_left
      ((shuffle ALL_TILES (shuffle pids (randNext seed)).2).1.take
        ((shuffle ALL_TILES (shuffle pids (randNext seed)).2).1.length - 4))
      (List.mergeSort_perm
        ((shuffle ALL_TILES (shuffle pids (randNext seed)).2).1.drop
          ((shuffle ALL_TILES (shuffle pids (randNext seed)).2).1.length - 4))
        (fun a b => a.number ≤ b.number))
    rw [List.take_append_drop] at h1
    exact h1.trans (shuffle_perm ALL_TILES _)

/-- Witness for C8 with four players and seed 0. -/
theorem mkGame_at_least_four_witness :
    4 ≤ ([5, 6, 7, 8] : List Nat).length ∧ mkGameOK [5, 6, 7, 8] 0 :=
  ⟨by decide, mkGame_at_least_four [5, 6, 7, 8] 0 (by decide)⟩

/-- C8 (counterexample): constructing a game from a single player fails —
`Game.__init__` indexes `players[1]` when building the group-0 slots and
raises `IndexError`. -/
theorem mkGame_one_player_fails : mkGame [1] 0 = none := rfl
